import Mathlib

/-!
Verification of the ibis expression/UDF core against its specification.

This development embeds, in Lean 4, the parts of the ibis repository that the
frozen claims speak about:

* the Impala backend entry points `verify` and `connect`
  (`src/ibis/backends/impala/__init__.py`), which are present in the source
  tree and are embedded directly from their Python bodies; and
* the vectorized-UDF declaration checks, the destructure splicing pass of
  `mutate`/`aggregate`, the grouped-aggregation semantics and the
  destructured-evaluation semantics, whose implementing modules
  (`ibis/udf/vectorized.py`, `ibis/expr/...`) are not part of the source
  sample: only their tests (`src/ibis/backends/tests/test_vectorized_udf.py`)
  are.  Those parts are modelled from the specification, as indicated by the
  doc comment of each such definition.
-/

namespace IbisCore

/-! ## Expressions and output entries for the destructure splicing pass -/

/-- A column-producing expression, as needed by the splicing pass: either a
reference to a source-table column, or the extraction of one named field from
a struct-producing UDF node (identified by a numeric id). -/
inductive Expr where
  | column (name : String)
  | structField (udfId : Nat) (field : String)
  deriving DecidableEq, Repr

/-- One entry of the output list a caller passes to `mutate`/`aggregate`:
either an explicitly named assignment, or a destructure expansion of a
struct-output UDF call.  A destructure expansion carries the ordered list of
`(field name, field extraction expression)` pairs of the struct's schema and
an optional caller-bound name (binding a name to a destructure is illegal and
is rejected by the splicing pass). -/
inductive OutputEntry where
  | named (name : String) (value : Expr)
  | destruct (boundName : Option String) (fields : List (String × Expr))
  deriving DecidableEq, Repr

/-- Errors raised at splice time (ibis `ExpressionError`). -/
inductive ExprError where
  | cannotNameDestruct
  | duplicateOutputName
  deriving DecidableEq, Repr

/-- Whether an output entry is a destructure expansion to which the caller
bound an explicit name. -/
def isNamedDestruct : OutputEntry → Bool
  | .destruct (some _) _ => true
  | _ => false

/-- Whether the destructure fields `fields` contain a field named `c`. -/
def collides (fields : List (String × Expr)) (c : String) : Bool :=
  fields.any (fun f => decide (f.1 = c))

/-- Association lookup for the overwrite assignments of the splicing pass. -/
def lookupAsg (c : String) : List (String × List (String × Expr)) → Option (List (String × Expr))
  | [] => none
  | (m, fs) :: rest => if m = c then some fs else lookupAsg c rest

/-- Modelled from the spec: the per-entry analysis of the splicing pass of
`Projection`/`Aggregation` construction (the `mutate` helper of
`ibis/expr/...`, absent from the source sample; only its tests are present).
It splits the requested output list into

* `asg`: source columns to be overwritten, each mapped to the list of
  `(name, expression)` pairs materialized at that column's position.  An
  explicitly named entry that collides with a source column overwrites just
  that column; a destructure expansion with at least one colliding field is
  materialized wholly at the position of its first colliding source column
  (spec §8.9, §9 and the issue-2649 comments in the tests: new fields are
  placed directly after the overwritten column, not at the end);
* `removed`: the remaining colliding source columns subsumed by such an
  expansion; and
* `tail`: the non-overwriting entries, appended after all source columns in
  the order they occur in the requested list. -/
def splitEntries (sourceNames : List String) :
    List OutputEntry → List (String × List (String × Expr)) × List String × List (String × Expr)
  | [] => ([], [], [])
  | entry :: rest =>
    let r := splitEntries sourceNames rest
    match entry with
    | .named n v =>
      if n ∈ sourceNames then ((n, [(n, v)]) :: r.1, r.2.1, r.2.2)
      else (r.1, r.2.1, (n, v) :: r.2.2)
    | .destruct _ fields =>
      match sourceNames.filter (collides fields) with
      | [] => (r.1, r.2.1, fields ++ r.2.2)
      | c :: cs => ((c, fields) :: r.1, cs ++ r.2.1, r.2.2)

/-- Modelled from the spec: emission of the final output list over the source
columns, in source-schema order.  A column marked `removed` is dropped (its
name reappears inside the expansion that subsumed it); a column with an
overwrite assignment is replaced by the assigned entries, in place; any other
column is kept as a reference to itself. -/
def emitColumns (asg : List (String × List (String × Expr))) (removed : List String) :
    List String → List (String × Expr)
  | [] => []
  | c :: cs =>
    if c ∈ removed then emitColumns asg removed cs
    else
      match lookupAsg c asg with
      | some fields => fields ++ emitColumns asg removed cs
      | none => (c, .column c) :: emitColumns asg removed cs

/-- Modelled from the spec: the splicing pass applied by `mutate` /
`Projection` construction when the requested output list may contain
destructure expansions (code absent from the source sample).  Faithful to the
spec's description of the observed behavior (§8.9, §9) and to the
issue-2649 comments in `src/ibis/backends/tests/test_vectorized_udf.py`:

1. binding an explicit name to a destructure expansion is rejected with
   `ExpressionError` (`Cannot name a destruct column`);
2. entries whose names collide with source columns overwrite those columns in
   place; an expansion containing a colliding field is materialized, in field
   order, at the position of its first colliding source column, so its new
   fields appear directly after the overwritten column;
3. non-overwriting entries are appended after all source columns;
4. a duplicated output column name is rejected with `ExpressionError`. -/
def mutate_splice (sourceNames : List String) (entries : List OutputEntry) :
    Except ExprError (List (String × Expr)) :=
  if entries.any isNamedDestruct then
    .error .cannotNameDestruct
  else
    let r := splitEntries sourceNames entries
    let out := emitColumns r.1 r.2.1 sourceNames ++ r.2.2
    if (out.map Prod.fst).Nodup then .ok out else .error .duplicateOutputName

/-! ## UDF declaration (`ibis/udf/vectorized.py`, absent from the sample) -/

/-- The categories of vectorized UDFs. -/
inductive UDFCategory where
  | elementwise
  | analytic
  | reduction
  deriving DecidableEq, Repr

/-- A datatype: a primitive kind or a struct with an ordered field schema
(spec data model: `Primitive(kind)` or `Struct(ordered list of (name, Type))`). -/
inductive DType where
  | double
  | int32
  | structT (fields : List (String × DType))

/-- The `output_type` argument of a UDF decorator, as the caller may pass it:
a single datatype, or (illegally) a list of datatypes. -/
inductive OutputTypeSpec where
  | single (t : DType)
  | listOf (ts : List DType)

/-- The kind of one declared parameter of the wrapped host function, in
declaration order: a plain positional(-or-keyword) parameter, a variadic
positional capture, a keyword-only parameter, or a variadic keyword capture. -/
inductive ParamKind where
  | positional
  | varArgs
  | keywordOnly
  | varKwargs
  deriving DecidableEq, Repr

/-- A host function's declared signature: its parameter kinds in order. -/
def FuncSig := List ParamKind

/-- Whether a parameter is a plain positional parameter. -/
def isPositional : ParamKind → Bool
  | .positional => true
  | _ => false

/-- The number of plain positional parameters of a signature.  Plain
positional parameters precede every variadic or keyword-only parameter, so
the count exceeds the declared input count exactly when some plain positional
parameter has no declared input type bound to it. -/
def countPositional (sig : FuncSig) : Nat :=
  (sig.filter isPositional).length

/-- The `TypeError`s raised at UDF declaration time, with their messages. -/
inductive UdfError where
  | typeError (msg : String)

/-- A validated UDF descriptor. -/
structure UDFDescriptor where
  category : UDFCategory
  input_type : List DType
  output_type : DType
  sig : FuncSig

/-- Modelled from the spec: `define_udf` (the `elementwise`/`analytic`/
`reduction` decorators of `ibis/udf/vectorized.py`, absent from the sample;
only their tests are present).  Declaration fails with `TypeError` when
`output_type` is a list rather than a single datatype, or when the wrapped
function declares a plain positional parameter beyond the number of declared
input types (extra parameters must be keyword-only or variadic-captured);
otherwise it returns the descriptor. -/
def define_udf (category : UDFCategory) (input_type : List DType)
    (output_type : OutputTypeSpec) (sig : FuncSig) : Except UdfError UDFDescriptor :=
  match output_type with
  | .listOf _ => .error (.typeError "The output type of a UDF must be a single datatype.")
  | .single t =>
    if countPositional sig > input_type.length then
      .error (.typeError "Extra parameters must be defined as keyword only.")
    else
      .ok ⟨category, input_type, t, sig⟩

/-! ## The Impala `verify` probe (`src/ibis/backends/impala/__init__.py`) -/

/-- The compiled artifact of the Impala `compile` entry point is SQL text. -/
def SqlText := String

/-- The errors `compile` can raise: a `TranslationError` (including its
subclasses), or any other exception. -/
inductive IbisError where
  | translationError (msg : String)
  | otherError (msg : String)
  deriving DecidableEq, Repr

/-- Embedded from `src/ibis/backends/impala/__init__.py` (`verify`): call
`compile(expr, params)`; return `True` on success; catch `TranslationError`
and return `False`; let every other exception propagate unmodified.  The
`compile` entry point itself (whose body lives in the absent
`impala/compiler.py`) is abstracted as the function argument `compileFn`. -/
def verify {α β : Type} (compileFn : α → β → Except IbisError SqlText)
    (expr : α) (params : β) : Except IbisError Bool :=
  match compileFn expr params with
  | .ok _ => .ok true
  | .error (.translationError _) => .ok false
  | .error (.otherError m) => .error (.otherError m)

/-! ## The Impala `connect` entry point (`src/ibis/backends/impala/__init__.py`) -/

/-- The process-wide option registry, as `connect` and `register_options`
see it: the default backend, and the other registered options (`temp_db`,
`temp_hdfs_path`), which `connect` never touches. -/
structure GlobalOptions (Client : Type) where
  default_backend : Option Client
  temp_db : String
  temp_hdfs_path : String
  deriving DecidableEq, Repr

/-- The observable outcome of one `connect` call: the returned client or the
propagated exception, whether `con.close()` ran, and the option registry
afterwards. -/
structure ConnectOutcome (Conn Client E : Type) where
  result : Except E Client
  connectionClosed : Bool
  options : GlobalOptions Client

/-- Embedded from `src/ibis/backends/impala/__init__.py` (`connect`, lines
123-133): after the `ImpalaConnection` `con` is established, construct
`ImpalaClient(con, ...)`; if that raises any exception, close `con` and
re-raise; otherwise, if `options.default_backend` is `None`, set it to the
new client; finally return the client.  The `ImpalaClient` constructor
(absent `impala/client.py`) is abstracted as the function argument
`mkClient`. -/
def connect {Conn Client E : Type} (mkClient : Conn → Except E Client)
    (con : Conn) (opts : GlobalOptions Client) : ConnectOutcome Conn Client E :=
  match mkClient con with
  | .error e => ⟨.error e, true, opts⟩
  | .ok client =>
    match opts.default_backend with
    | none => ⟨.ok client, false, { opts with default_backend := some client }⟩
    | some _ => ⟨.ok client, false, opts⟩

/-! ## Grouped aggregation of reduction UDFs -/

/-- A table row: an association of column names to (integer) values. -/
def Row := List (String × Int)

/-- Look a column up in a row. -/
def lookupCol (n : String) : Row → Option Int
  | [] => none
  | (m, v) :: rest => if m = n then some v else lookupCol n rest

/-- The grouping-key tuple of a row: its values at the grouping columns. -/
def keyTuple (keys : List String) (r : Row) : List (Option Int) :=
  keys.map (fun k => lookupCol k r)

/-- The distinct elements of a list, in first-occurrence order (`seen` is the
accumulator of elements already emitted). -/
def dedupFirstAux {α : Type} [DecidableEq α] (seen : List α) : List α → List α
  | [] => []
  | k :: ks => if k ∈ seen then dedupFirstAux seen ks
               else k :: dedupFirstAux (k :: seen) ks

/-- The distinct grouping-key tuples occurring in a table, in first-occurrence
order. -/
def groupsOf (keys : List String) (table : List Row) : List (List (Option Int)) :=
  dedupFirstAux [] (table.map (keyTuple keys))

/-- Modelled from the spec: the groups an aggregation evaluates (`bind_group`
of spec §4.2, whose implementing code is absent from the sample; only its
tests are present).  A reduction UDF with no explicit grouping keys binds to
the whole input as a single group, independently of the data — so there is
exactly one group even over an empty input.  With grouping keys, the rows are
partitioned by their grouping-key tuple, the groups ordered by first
occurrence. -/
def boundGroups (keys : List String) (table : List Row) : List (List Row) :=
  match keys with
  | [] => [table]
  | _ :: _ =>
    (groupsOf keys table).map
      (fun g => table.filter (fun r => decide (keyTuple keys r = g)))

/-- Modelled from the spec: the grouped aggregation of a reduction UDF
(`Aggregation` execution, absent from the sample).  The reduction `udf` (a
fold producing one output row per group) is applied to each bound group's
rows. -/
def aggregate (udf : List Row → List (String × Int)) (keys : List String)
    (table : List Row) : List (List (String × Int)) :=
  (boundGroups keys table).map udf

/-! ## Evaluation of a destructured elementwise struct UDF -/

/-- Modelled from the spec: evaluation of the destructured output list of a
struct-output elementwise UDF over a column of inputs (the pandas/pyspark
execution of `DestructColumn`, absent from the sample; only its tests are
present).  Per input value the function handle `f` is invoked once, its
struct result is shared by all destructured fields, and the second component
counts the invocations of `f`. -/
def evalDestructOnce (f : Int → List Int) (fields : List String) :
    List Int → List (List (String × Int)) × Nat
  | [] => ([], 0)
  | v :: vs =>
    let r := evalDestructOnce f fields vs
    (fields.zip (f v) :: r.1, r.2 + 1)

/-- The specification-side reference semantics: one evaluation of the
struct-producing node per input, followed by per-field extraction (spec §4.3:
each destructured entry is an elementwise-equivalent extraction of its field
from the underlying struct-producing node). -/
def evalStructThenExtract (f : Int → List Int) (fields : List String)
    (inputs : List Int) : List (List (String × Int)) :=
  inputs.map (fun v => fields.zip (f v))

/-! ## Helper lemmas -/

/-- With no grouping keys, every row's key tuple is empty. -/
theorem keyTuple_nil (r : Row) : keyTuple [] r = [] := rfl

/-- Mapping the empty key tuple over a table yields a constant list. -/
theorem map_keyTuple_nil (table : List Row) :
    table.map (keyTuple []) = List.replicate table.length [] := by
  induction table with
  | nil => rfl
  | cons r rs ih => simp [keyTuple_nil, List.replicate, ih]

/-- Deduplicating a constant list whose element was already seen yields
nothing. -/
theorem dedupFirstAux_replicate_mem {α : Type} [DecidableEq α]
    (k : α) (seen : List α) (h : k ∈ seen) (n : Nat) :
    dedupFirstAux seen (List.replicate n k) = [] := by
  induction n with
  | zero => rfl
  | succ m ih => simp [List.replicate, dedupFirstAux, h, ih]

/-- Projecting back the names of source columns kept as self-references. -/
theorem map_fst_map_column (S : List String) :
    (S.map (fun c => (c, Expr.column c))).map Prod.fst = S := by
  induction S with
  | nil => rfl
  | cons c cs ih => simp only [List.map_cons]; rw [ih]

/-- A source column collides with a destructure's fields exactly when one of
the field names equals it. -/
theorem collides_eq_true_iff (F : List (String × Expr)) (c : String) :
    collides F c = true ↔ ∃ f ∈ F, f.1 = c := by
  simp [collides]

/-- When no field name occurs among the source columns, no source column is a
collision candidate. -/
theorem filter_collides_eq_nil (S : List String) (F : List (String × Expr))
    (h : ∀ f ∈ F, f.1 ∉ S) : S.filter (collides F) = [] := by
  refine List.filter_eq_nil_iff.mpr (fun c hc hcol => ?_)
  obtain ⟨f, hf, hfc⟩ := (collides_eq_true_iff F c).mp hcol
  exact h f hf (hfc ▸ hc)

/-- Emission with no overwrites and no removals keeps every source column as
a reference to itself. -/
theorem emitColumns_nil_nil (S : List String) :
    emitColumns [] [] S = S.map (fun c => (c, Expr.column c)) := by
  induction S with
  | nil => rfl
  | cons c cs ih => simp [emitColumns, lookupAsg, ih]

/-- Emission skips over a prefix of source columns that are neither removed
nor overwritten, keeping them as references to themselves. -/
theorem emitColumns_append_untouched (asg : List (String × List (String × Expr)))
    (removed : List String) (P rest : List String)
    (h : ∀ p ∈ P, p ∉ removed ∧ lookupAsg p asg = none) :
    emitColumns asg removed (P ++ rest)
      = P.map (fun p => (p, Expr.column p)) ++ emitColumns asg removed rest := by
  induction P with
  | nil => rfl
  | cons p ps ih =>
    have hp := h p (by simp)
    simp only [List.cons_append, emitColumns, if_neg hp.1, hp.2, List.map_cons]
    exact congrArg _ (ih (fun q hq => h q (by simp [hq])))

/-- Emission over source columns that carry no overwrite assignment drops
exactly the removed ones and keeps the rest as references to themselves. -/
theorem emitColumns_drop (asg : List (String × List (String × Expr)))
    (removed : List String) (p : String → Bool) (Q : List String)
    (h : ∀ q ∈ Q, (q ∈ removed ↔ p q = true) ∧ lookupAsg q asg = none) :
    emitColumns asg removed Q
      = (Q.filter (fun q => !(p q))).map (fun q => (q, Expr.column q)) := by
  induction Q with
  | nil => rfl
  | cons q qs ih =>
    have hq := h q (by simp)
    by_cases hpq : p q = true
    · rw [List.filter_cons_of_neg (by simp [hpq])]
      simp only [emitColumns, if_pos (hq.1.mpr hpq)]
      exact ih (fun x hx => h x (by simp [hx]))
    · rw [List.filter_cons_of_pos (by simp [hpq])]
      simp only [emitColumns, if_neg (fun hc => hpq (hq.1.mp hc)), hq.2,
        List.map_cons]
      rw [ih (fun x hx => h x (by simp [hx]))]

/-- The per-entry analysis of a single destructure expansion whose first
colliding source column is `c`: the whole expansion is assigned to `c`'s
position and the later colliding source columns are marked removed. -/
theorem splitEntries_destruct_overwrite (P Q : List String) (c : String)
    (F : List (String × Expr))
    (h1 : ∀ p ∈ P, collides F p = false) (h2 : collides F c = true) :
    splitEntries (P ++ c :: Q) [.destruct none F]
      = ([(c, F)], Q.filter (collides F), []) := by
  have hfilter : (P ++ c :: Q).filter (collides F) = c :: Q.filter (collides F) := by
    rw [List.filter_append,
      List.filter_eq_nil_iff.mpr (fun p hp => by simp [h1 p hp]),
      List.filter_cons_of_pos h2, List.nil_append]
  simp [splitEntries, hfilter]

/-! ## Claim theorems -/

/-- C2: `verify(expr, params)` returns True if `compile(expr, params)`
succeeds, returns False if it raises `TranslationError`, and in every other
case lets the error raised by `compile` propagate unmodified. -/
theorem claim_C2_verify_probe {α β : Type}
    (compileFn : α → β → Except IbisError SqlText) (expr : α) (params : β) :
    ((∃ a, compileFn expr params = .ok a) →
      verify compileFn expr params = .ok true) ∧
    (∀ m, compileFn expr params = .error (.translationError m) →
      verify compileFn expr params = .ok false) ∧
    (∀ m, compileFn expr params = .error (.otherError m) →
      verify compileFn expr params = .error (.otherError m)) := by
  refine ⟨fun ⟨a, h⟩ => ?_, fun m h => ?_, fun m h => ?_⟩ <;> simp [verify, h]

/-- Witness for C2 at concrete compilation outcomes. -/
theorem claim_C2_verify_probe_witness :
    verify (fun (_ : Nat) (_ : Nat) => (.ok "SELECT 1" : Except IbisError SqlText))
      0 0 = .ok true ∧
    verify (fun (_ : Nat) (_ : Nat) =>
        (.error (.translationError "no translation rule") : Except IbisError SqlText))
      0 0 = .ok false ∧
    verify (fun (_ : Nat) (_ : Nat) =>
        (.error (.otherError "connection refused") : Except IbisError SqlText))
      0 0 = .error (.otherError "connection refused") :=
  ⟨(claim_C2_verify_probe _ 0 0).1 ⟨"SELECT 1", rfl⟩,
   (claim_C2_verify_probe _ 0 0).2.1 "no translation rule" rfl,
   (claim_C2_verify_probe _ 0 0).2.2 "connection refused" rfl⟩

/-- C3: for every UDF category, declaring a UDF whose `output_type` is a list
of datatypes rather than a single datatype fails with `TypeError` carrying
the single-datatype message. -/
theorem claim_C3_output_type_list (category : UDFCategory)
    (input_type : List DType) (ts : List DType) (sig : FuncSig) :
    define_udf category input_type (.listOf ts) sig
      = .error (.typeError "The output type of a UDF must be a single datatype.") :=
  rfl

/-- C4: declaring a UDF whose wrapped function has a plain positional
parameter beyond the declared input types fails with `TypeError`; when every
extra parameter is keyword-only or captured variadically (so the plain
positional count does not exceed the declared inputs), declaration
succeeds. -/
theorem claim_C4_extra_positional (category : UDFCategory)
    (input_type : List DType) (t : DType) (sig : FuncSig) :
    (input_type.length < countPositional sig →
      define_udf category input_type (.single t) sig
        = .error (.typeError "Extra parameters must be defined as keyword only.")) ∧
    (countPositional sig ≤ input_type.length →
      define_udf category input_type (.single t) sig
        = .ok ⟨category, input_type, t, sig⟩) := by
  refine ⟨fun h => ?_, fun h => ?_⟩
  · simp only [define_udf]
    rw [if_pos h]
  · simp only [define_udf]
    rw [if_neg (by omega)]

/-- Witness for C4: one extra plain positional parameter fails; the same
shape with a keyword-only parameter succeeds, as does capture via a variadic
positional parameter. -/
theorem claim_C4_extra_positional_witness :
    define_udf .elementwise [DType.double] (.single DType.double)
        [.positional, .positional]
      = .error (.typeError "Extra parameters must be defined as keyword only.") ∧
    define_udf .elementwise [DType.double] (.single DType.double)
        [.positional, .keywordOnly]
      = .ok ⟨.elementwise, [DType.double], DType.double, [.positional, .keywordOnly]⟩ ∧
    define_udf .elementwise [DType.double, DType.int32] (.single DType.double)
        [.varArgs]
      = .ok ⟨.elementwise, [DType.double, DType.int32], DType.double, [.varArgs]⟩ :=
  ⟨(claim_C4_extra_positional _ _ _ _).1 (by decide),
   (claim_C4_extra_positional _ _ _ _).2 (by decide),
   (claim_C4_extra_positional _ _ _ _).2 (by decide)⟩

/-- C5: binding an explicit output name to a destructure expansion itself
makes the splicing pass fail with `ExpressionError` (cannot name a
destructured result). -/
theorem claim_C5_named_destruct (sourceNames : List String)
    (entries : List OutputEntry) (h : entries.any isNamedDestruct = true) :
    mutate_splice sourceNames entries = .error .cannotNameDestruct := by
  simp [mutate_splice, h]

/-- Witness for C5, mirroring `test_elementwise_udf_named_destruct`. -/
theorem claim_C5_named_destruct_witness :
    mutate_splice ["index", "double_col"]
      [.destruct (some "new_struct")
        [("col1", .structField 0 "col1"), ("col2", .structField 0 "col2")]]
      = .error .cannotNameDestruct :=
  claim_C5_named_destruct _ _ (by decide)

/-- C8: evaluating the destructured output list invokes the underlying UDF
function handle exactly once per input value, and the values produced equal
one evaluation of the struct-producing node per input followed by per-field
extraction. -/
theorem claim_C8_destruct_exact_once (f : Int → List Int)
    (fields : List String) (inputs : List Int) :
    (evalDestructOnce f fields inputs).2 = inputs.length ∧
    (evalDestructOnce f fields inputs).1 = evalStructThenExtract f fields inputs := by
  induction inputs with
  | nil => exact ⟨rfl, rfl⟩
  | cons v vs ih =>
    refine ⟨?_, ?_⟩
    · simp [evalDestructOnce, ih.1]
    · simp [evalDestructOnce, evalStructThenExtract] at ih ⊢
      exact ih.2

/-- C9: when constructing the client from the established connection fails,
`connect` closes the connection and propagates that exact error, leaving the
option registry untouched. -/
theorem claim_C9_connect_close_on_failure {Conn Client E : Type}
    (mkClient : Conn → Except E Client) (con : Conn)
    (opts : GlobalOptions Client) (e : E) (h : mkClient con = .error e) :
    (connect mkClient con opts).result = .error e ∧
    (connect mkClient con opts).connectionClosed = true ∧
    (connect mkClient con opts).options = opts := by
  simp [connect, h]

/-- Witness for C9 at a concrete failing client constructor. -/
theorem claim_C9_connect_close_on_failure_witness :
    (connect (fun (_ : Nat) => (.error "boom" : Except String Nat)) 0
        (⟨none, "__ibis_tmp", "/tmp/ibis"⟩ : GlobalOptions Nat)).result
      = .error "boom" ∧
    (connect (fun (_ : Nat) => (.error "boom" : Except String Nat)) 0
        (⟨none, "__ibis_tmp", "/tmp/ibis"⟩ : GlobalOptions Nat)).connectionClosed
      = true ∧
    (connect (fun (_ : Nat) => (.error "boom" : Except String Nat)) 0
        (⟨none, "__ibis_tmp", "/tmp/ibis"⟩ : GlobalOptions Nat)).options
      = ⟨none, "__ibis_tmp", "/tmp/ibis"⟩ :=
  claim_C9_connect_close_on_failure _ 0 _ "boom" rfl

/-- C10: on a successful `connect`, the default-backend option is set to the
new client exactly when it was previously unset, is left unchanged otherwise,
and no other registered option is modified. -/
theorem claim_C10_connect_default_backend {Conn Client E : Type}
    (mkClient : Conn → Except E Client) (con : Conn)
    (opts : GlobalOptions Client) (client : Client)
    (h : mkClient con = .ok client) :
    (connect mkClient con opts).result = .ok client ∧
    (opts.default_backend = none →
      (connect mkClient con opts).options
        = { opts with default_backend := some client }) ∧
    (∀ b, opts.default_backend = some b →
      (connect mkClient con opts).options = opts) ∧
    (connect mkClient con opts).options.temp_db = opts.temp_db ∧
    (connect mkClient con opts).options.temp_hdfs_path = opts.temp_hdfs_path := by
  cases hd : opts.default_backend <;> simp [connect, h, hd]

/-- Witness for C10: with the default backend unset it becomes the new
client; with it already set, the registry is unchanged. -/
theorem claim_C10_connect_default_backend_witness :
    ((connect (fun (_ : Nat) => (.ok 7 : Except String Nat)) 0
        (⟨none, "__ibis_tmp", "/tmp/ibis"⟩ : GlobalOptions Nat)).result = .ok 7 ∧
     (connect (fun (_ : Nat) => (.ok 7 : Except String Nat)) 0
        (⟨none, "__ibis_tmp", "/tmp/ibis"⟩ : GlobalOptions Nat)).options
       = ⟨some 7, "__ibis_tmp", "/tmp/ibis"⟩) ∧
    (connect (fun (_ : Nat) => (.ok 9 : Except String Nat)) 0
        (⟨some 3, "__ibis_tmp", "/tmp/ibis"⟩ : GlobalOptions Nat)).options
      = ⟨some 3, "__ibis_tmp", "/tmp/ibis"⟩ := by
  have h1 := claim_C10_connect_default_backend
    (fun (_ : Nat) => (.ok 7 : Except String Nat)) 0
    (⟨none, "__ibis_tmp", "/tmp/ibis"⟩ : GlobalOptions Nat) 7 rfl
  have h2 := claim_C10_connect_default_backend
    (fun (_ : Nat) => (.ok 9 : Except String Nat)) 0
    (⟨some 3, "__ibis_tmp", "/tmp/ibis"⟩ : GlobalOptions Nat) 9 rfl
  exact ⟨⟨h1.1, h1.2.1 rfl⟩, h2.2.2.1 3 rfl⟩

/-- Consistency of the single-group binding with the generic key-tuple
partition: over a nonempty table, partitioning by the empty key tuple also
yields exactly one group holding the whole table (the single-group special
case of `boundGroups` only adds the empty-input case on top of it). -/
theorem partition_nil_keys_eq_whole (table : List Row) (h : table ≠ []) :
    (groupsOf [] table).map
        (fun g => table.filter (fun r => decide (keyTuple [] r = g)))
      = [table] := by
  obtain ⟨r, rs, rfl⟩ := List.exists_cons_of_ne_nil h
  have hfilter : (r :: rs).filter
      (fun x => decide (keyTuple [] x = ([] : List (Option Int)))) = r :: rs :=
    List.filter_eq_self.mpr (fun a _ => by simp [keyTuple_nil])
  have hgroups : groupsOf [] (r :: rs) = [[]] := by
    show dedupFirstAux [] ((r :: rs).map (keyTuple [])) = [[]]
    rw [map_keyTuple_nil]
    show dedupFirstAux [] (List.replicate (rs.length + 1) []) = [[]]
    rw [List.replicate_succ]
    simp only [dedupFirstAux, List.not_mem_nil, if_false]
    rw [dedupFirstAux_replicate_mem ([] : List (Option Int)) [[]] (by simp)]
  rw [hgroups]
  simp only [List.map_cons, List.map_nil]
  rw [hfilter]

/-- C7: an aggregation of a reduction UDF with no explicit grouping keys
binds the whole input as a single group, for every input table: it produces
exactly one output row, the fold of the UDF over all input rows. -/
theorem claim_C7_reduction_no_groupby (udf : List Row → List (String × Int))
    (table : List Row) :
    aggregate udf [] table = [udf table] ∧
    (aggregate udf [] table).length = 1 := by
  constructor
  · rfl
  · rfl

/-- Witness for C7: the row-counting reduction over a two-row table and over
the empty table — one output row in both cases. -/
theorem claim_C7_reduction_no_groupby_witness :
    aggregate (fun rows => [("n", (rows.length : Int))]) []
        [[("double_col", (1 : Int))], [("double_col", 2)]]
      = [[("n", (2 : Int))]] ∧
    aggregate (fun rows => [("n", (rows.length : Int))]) [] ([] : List Row)
      = [[("n", (0 : Int))]] :=
  ⟨((claim_C7_reduction_no_groupby (fun rows => [("n", (rows.length : Int))])
      [[("double_col", (1 : Int))], [("double_col", 2)]]).1).trans rfl,
   ((claim_C7_reduction_no_groupby (fun rows => [("n", (rows.length : Int))])
      ([] : List Row)).1).trans rfl⟩

/-- C6: splicing the destructure of a struct-output UDF whose field names do
not collide with the source schema yields all original columns unchanged, in
order, followed by exactly the struct fields, in field-declaration order. -/
theorem claim_C6_destruct_no_collision (S : List String)
    (F : List (String × Expr)) (hdisj : ∀ f ∈ F, f.1 ∉ S)
    (hS : S.Nodup) (hF : (F.map Prod.fst).Nodup) :
    mutate_splice S [.destruct none F]
      = .ok (S.map (fun c => (c, Expr.column c)) ++ F) := by
  have hsplit : splitEntries S [.destruct none F] = ([], [], F) := by
    simp [splitEntries, filter_collides_eq_nil S F hdisj]
  have hnames : ((S.map (fun c => (c, Expr.column c)) ++ F).map Prod.fst).Nodup := by
    rw [List.map_append, map_fst_map_column]
    refine hS.append hF (fun a haS haF => ?_)
    obtain ⟨f, hf, hfa⟩ := List.mem_map.mp haF
    exact hdisj f hf (hfa ▸ haS)
  show mutate_splice S [.destruct none F] = _
  rw [mutate_splice]
  rw [if_neg (by simp [isNamedDestruct])]
  rw [hsplit]
  simp only
  rw [emitColumns_nil_nil]
  rw [if_pos hnames]

/-- Witness for C6, mirroring `test_elementwise_udf_destruct`: fields `col1`,
`col2` are appended after the source columns. -/
theorem claim_C6_destruct_no_collision_witness :
    mutate_splice ["index", "double_col", "int_col"]
      [.destruct none [("col1", .structField 0 "col1"), ("col2", .structField 0 "col2")]]
      = .ok [("index", .column "index"), ("double_col", .column "double_col"),
             ("int_col", .column "int_col"),
             ("col1", .structField 0 "col1"), ("col2", .structField 0 "col2")] :=
  claim_C6_destruct_no_collision _ _ (by decide) (by decide) (by decide)

/-- C1 counterexample: over source columns `index, double_col, int_col`,
destructuring a struct with fields `double_col, col2` yields `col2` directly
after the overwritten `double_col` — not after all source columns, as the
claim requires. -/
theorem claim_C1_overwrite_counterexample :
    mutate_splice ["index", "double_col", "int_col"]
      [.destruct none
        [("double_col", .structField 0 "double_col"), ("col2", .structField 0 "col2")]]
      = .ok [("index", Expr.column "index"),
             ("double_col", Expr.structField 0 "double_col"),
             ("col2", Expr.structField 0 "col2"),
             ("int_col", Expr.column "int_col")] ∧
    [("index", Expr.column "index"),
     ("double_col", Expr.structField 0 "double_col"),
     ("col2", Expr.structField 0 "col2"),
     ("int_col", Expr.column "int_col")]
      ≠ [("index", Expr.column "index"),
         ("double_col", Expr.structField 0 "double_col"),
         ("int_col", Expr.column "int_col"),
         ("col2", Expr.structField 0 "col2")] :=
  ⟨rfl, by decide⟩

/-- C1 (amended): a destructure expansion with at least one colliding field
is materialized, in field order, at the position of its first colliding
source column: the columns before it are kept unchanged, the expansion's
fields follow directly (so the collider's expression is replaced in place and
the new fields appear immediately after it, not at the end), later colliding
source columns are subsumed by the expansion, and the remaining later columns
keep their order after it. -/
theorem claim_C1_overwrite_placement (P Q : List String) (c : String)
    (F : List (String × Expr))
    (h1 : ∀ p ∈ P, collides F p = false)
    (h2 : collides F c = true)
    (hcQ : c ∉ Q)
    (hnd : (P ++ F.map Prod.fst ++ Q.filter (fun q => !(collides F q))).Nodup) :
    mutate_splice (P ++ c :: Q) [.destruct none F]
      = .ok (P.map (fun p => (p, Expr.column p)) ++ F
             ++ (Q.filter (fun q => !(collides F q))).map (fun q => (q, Expr.column q))) := by
  have hsplit := splitEntries_destruct_overwrite P Q c F h1 h2
  have hemit : emitColumns [(c, F)] (Q.filter (collides F)) (P ++ c :: Q)
      = P.map (fun p => (p, Expr.column p)) ++
        (F ++ (Q.filter (fun q => !(collides F q))).map (fun q => (q, Expr.column q))) := by
    rw [emitColumns_append_untouched _ _ P (c :: Q) (fun p hp => by
      constructor
      · intro hmem
        have := (List.mem_filter.mp hmem).2
        rw [h1 p hp] at this
        exact Bool.false_ne_true this
      · show (if c = p then _ else _) = _
        have hne : ¬ (c = p) := by
          intro hcp
          rw [hcp, h1 p hp] at h2
          exact Bool.false_ne_true h2
        rw [if_neg hne]
        rfl)]
    congr 1
    have hcR : c ∉ Q.filter (collides F) :=
      fun hmem => hcQ (List.mem_filter.mp hmem).1
    simp only [emitColumns, if_neg hcR]
    have : lookupAsg c [(c, F)] = some F := by
      show (if c = c then _ else _) = _
      rw [if_pos rfl]
    rw [this]
    show F ++ emitColumns [(c, F)] (Q.filter (collides F)) Q
        = F ++ (Q.filter (fun q => !(collides F q))).map (fun q => (q, Expr.column q))
    congr 1
    exact emitColumns_drop [(c, F)] (Q.filter (collides F)) (collides F) Q
      (fun q hq => by
        constructor
        · exact ⟨fun hmem => (List.mem_filter.mp hmem).2,
                 fun hcol => List.mem_filter.mpr ⟨hq, hcol⟩⟩
        · show (if c = q then _ else _) = _
          have hne : ¬ (c = q) := by
            intro hcq
            rw [hcq] at hcQ
            exact hcQ hq
          rw [if_neg hne]
          rfl)
  have hnames : ((P.map (fun p => (p, Expr.column p)) ++
      (F ++ (Q.filter (fun q => !(collides F q))).map (fun q => (q, Expr.column q)))).map
        Prod.fst).Nodup := by
    rw [List.map_append, List.map_append, map_fst_map_column, map_fst_map_column]
    rw [← List.append_assoc]
    exact hnd
  rw [mutate_splice, if_neg (by simp [isNamedDestruct])]
  rw [hsplit]
  simp only
  rw [hemit, List.append_nil, if_pos hnames, List.append_assoc]

/-- Witness for C1 (amended), mirroring
`test_elementwise_udf_overwrite_destruct`. -/
theorem claim_C1_overwrite_placement_witness :
    mutate_splice (["index"] ++ "double_col" :: ["int_col"])
      [.destruct none
        [("double_col", .structField 0 "double_col"), ("col2", .structField 0 "col2")]]
      = .ok [("index", Expr.column "index"),
             ("double_col", Expr.structField 0 "double_col"),
             ("col2", Expr.structField 0 "col2"),
             ("int_col", Expr.column "int_col")] :=
  claim_C1_overwrite_placement ["index"] ["int_col"] "double_col"
    [("double_col", .structField 0 "double_col"), ("col2", .structField 0 "col2")]
    (by decide) (by decide) (by decide) (by decide)

end IbisCore
